import Mathlib

/-!
# Verification of the weather MCP client's intent-extraction and orchestration core

Shallow embedding of `src/mcp-client-weather/client-llama3-ollama.py`.
Text is modelled as `List Char`.  Python `re` searches are modelled by
executable functions transcribing the exact backtracking semantics of the
concrete patterns used by the source.  `json.loads` is modelled by a
recursive-descent parser over the JSON grammar (numbers are represented as
exact rationals; the non-standard `NaN`/`Infinity` extensions and surrogate
pairing of `\uXXXX` escapes are outside the model).
-/

/-- ASCII whitespace recognised both by Python `str.strip()` and by the
regex class `\s` (the model is restricted to ASCII). -/
def isWs (c : Char) : Bool :=
  c = ' ' || c = '\t' || c = '\n' || c = '\r' || c = '\x0b' || c = '\x0c'

/-- Whitespace accepted between JSON tokens by `json.loads`. -/
def jsonWsB (c : Char) : Bool :=
  c = ' ' || c = '\t' || c = '\n' || c = '\r'

/-- `str.lower()` restricted to ASCII (all keyword tests in the source are
on ASCII letters). -/
def lowerStr (s : List Char) : List Char := s.map Char.toLower

/-- Python `str.strip()`: drop leading and trailing whitespace. -/
def pyStrip (s : List Char) : List Char :=
  ((s.dropWhile isWs).reverse.dropWhile isWs).reverse

/-- Boolean prefix test on character lists. -/
def isPre : List Char → List Char → Bool
  | [], _ => true
  | _ :: _, [] => false
  | a :: p, b :: s => if a = b then isPre p s else false

/-- Index of the first occurrence of `p` as a contiguous substring of `s`. -/
def firstOcc (p : List Char) : List Char → Option Nat
  | [] => if isPre p [] then some 0 else none
  | c :: s => if isPre p (c :: s) then some 0 else (firstOcc p s).map (· + 1)

/-- Substring containment test (used for the `in`-on-`str` checks of the
source, e.g. `"forecast" in lowered`). -/
def containsSub (p s : List Char) : Bool := (firstOcc p s).isSome

/-- JSON values as produced by `json.loads`.  Numbers are exact rationals
(abstracting Python's `int`/`float`); object fields are kept in insertion
order, later duplicate keys overwriting in place as Python dicts do. -/
inductive Value where
  | null : Value
  | bool : Bool → Value
  | num : ℚ → Value
  | str : List Char → Value
  | arr : List Value → Value
  | obj : List (List Char × Value) → Value

/-- Association-list update: replace in place if the key exists, else append
(the behaviour of assignment into a Python dict). -/
def updAssoc : List (List Char × Value) → List Char → Value → List (List Char × Value)
  | [], k, v => [(k, v)]
  | (k', v') :: t, k, v => if k' = k then (k, v) :: t else (k', v') :: updAssoc t k v

/-- First binding of a key in an association list. -/
def assocFind : List (List Char × Value) → List Char → Option Value
  | [], _ => none
  | (k', v') :: t, k => if k' = k then some v' else assocFind t k

/-- `d[k]` / `k in d` on a detected tool call (`none` on a non-dict). -/
def objGet : Value → List Char → Option Value
  | .obj kvs, k => assocFind kvs k
  | _, _ => none

/-- The key `name`. -/
def nameKey : List Char := ['n', 'a', 'm', 'e']

/-- `"name" in obj` as used at line 53 of the source. -/
def hasNameKey (v : Value) : Bool := (objGet v nameKey).isSome

/-- Decimal digits of a character list, most significant first. -/
def digitsVal (ds : List Char) : Nat :=
  ds.foldl (fun a c => a * 10 + (c.toNat - '0'.toNat)) 0

/-- Hex digit value. -/
def hexVal (c : Char) : Nat :=
  if '0' ≤ c ∧ c ≤ '9' then c.toNat - '0'.toNat
  else if 'a' ≤ c ∧ c ≤ 'f' then c.toNat - 'a'.toNat + 10
  else if 'A' ≤ c ∧ c ≤ 'F' then c.toNat - 'A'.toNat + 10
  else 0

def isHexDigit (c : Char) : Bool :=
  ('0' ≤ c && c ≤ '9') || ('a' ≤ c && c ≤ 'f') || ('A' ≤ c && c ≤ 'F')

/-- JSON string body parser (after the opening quote): returns the decoded
characters and the input following the closing quote. -/
def parseStrBody : List Char → Option (List Char × List Char)
  | [] => none
  | '"' :: rest => some ([], rest)
  | '\\' :: e :: rest =>
    match e with
    | '"' => (parseStrBody rest).map (fun r => ('"' :: r.1, r.2))
    | '\\' => (parseStrBody rest).map (fun r => ('\\' :: r.1, r.2))
    | '/' => (parseStrBody rest).map (fun r => ('/' :: r.1, r.2))
    | 'b' => (parseStrBody rest).map (fun r => ('\x08' :: r.1, r.2))
    | 'f' => (parseStrBody rest).map (fun r => ('\x0c' :: r.1, r.2))
    | 'n' => (parseStrBody rest).map (fun r => ('\n' :: r.1, r.2))
    | 'r' => (parseStrBody rest).map (fun r => ('\r' :: r.1, r.2))
    | 't' => (parseStrBody rest).map (fun r => ('\t' :: r.1, r.2))
    | 'u' =>
      match rest with
      | h1 :: h2 :: h3 :: h4 :: rest' =>
        if isHexDigit h1 && isHexDigit h2 && isHexDigit h3 && isHexDigit h4 then
          (parseStrBody rest').map (fun r =>
            (Char.ofNat (((hexVal h1 * 16 + hexVal h2) * 16 + hexVal h3) * 16 + hexVal h4) :: r.1, r.2))
        else none
      | _ => none
    | _ => none
  | c :: rest =>
    if c.toNat < 0x20 then none
    else (parseStrBody rest).map (fun r => (c :: r.1, r.2))

/-- JSON number parser: `-? int frac? exp?` with the exact grammar enforced
by `json.loads` (no leading zeros, at least one digit in frac and exp). -/
def parseNum (s : List Char) : Option (ℚ × List Char) :=
  let (neg, s1) := match s with
    | '-' :: t => (true, t)
    | _ => (false, s)
  let intDs := s1.takeWhile Char.isDigit
  let (intDs, s2) :=
    match s1 with
    | '0' :: t => (['0'], t)
    | _ => (intDs, s1.drop intDs.length)
  if intDs.isEmpty then none else
  let (fracDs, s3) :=
    match s2 with
    | '.' :: t =>
      let f := t.takeWhile Char.isDigit
      (f, t.drop f.length)
    | _ => ([], s2)
  if s2 ≠ s3 && fracDs.isEmpty then none else
  let (expOk, expNeg, expDs, s4) :=
    match s3 with
    | 'e' :: t | 'E' :: t =>
      let (en, t') := match t with
        | '+' :: u => (false, u)
        | '-' :: u => (true, u)
        | _ => (false, t)
      let e := t'.takeWhile Char.isDigit
      (!e.isEmpty, en, e, t'.drop e.length)
    | _ => (true, false, [], s3)
  if !expOk then none else
  let mag : ℚ := (digitsVal intDs : ℚ) + (digitsVal fracDs : ℚ) / ((10 : ℚ) ^ fracDs.length)
  let scaled : ℚ := if expNeg then mag / ((10 : ℚ) ^ digitsVal expDs)
                    else mag * ((10 : ℚ) ^ digitsVal expDs)
  some (if neg then -scaled else scaled, s4)

mutual

/-- Fueled JSON value parser; consumes leading whitespace.  Returns the
value and the unconsumed remainder. -/
def parseVal (fuel : Nat) (s : List Char) : Option (Value × List Char) :=
  match fuel with
  | 0 => none
  | fuel + 1 =>
    let s := s.dropWhile jsonWsB
    if isPre ['n', 'u', 'l', 'l'] s then some (.null, s.drop 4)
    else if isPre ['t', 'r', 'u', 'e'] s then some (.bool true, s.drop 4)
    else if isPre ['f', 'a', 'l', 's', 'e'] s then some (.bool false, s.drop 5)
    else
      match s with
      | '"' :: rest => (parseStrBody rest).map (fun r => (.str r.1, r.2))
      | '{' :: rest =>
        let rest := rest.dropWhile jsonWsB
        (match rest with
         | '}' :: rest' => some (.obj [], rest')
         | _ => parseMembers fuel rest [])
      | '[' :: rest =>
        let rest := rest.dropWhile jsonWsB
        (match rest with
         | ']' :: rest' => some (.arr [], rest')
         | _ => parseElems fuel rest [])
      | c :: _ =>
        if c = '-' || c.isDigit then (parseNum s).map (fun r => (.num r.1, r.2))
        else none
      | [] => none

/-- Object members: `string : value (, string : value)* }`. -/
def parseMembers (fuel : Nat) (s : List Char) (acc : List (List Char × Value)) :
    Option (Value × List Char) :=
  match fuel with
  | 0 => none
  | fuel + 1 =>
    match s.dropWhile jsonWsB with
    | '"' :: rest =>
      match parseStrBody rest with
      | none => none
      | some (key, rest1) =>
        match rest1.dropWhile jsonWsB with
        | ':' :: rest2 =>
          match parseVal fuel rest2 with
          | none => none
          | some (v, rest3) =>
            let acc := updAssoc acc key v
            match rest3.dropWhile jsonWsB with
            | ',' :: rest4 => parseMembers fuel rest4 acc
            | '}' :: rest4 => some (.obj acc, rest4)
            | _ => none
        | _ => none
    | _ => none

/-- Array elements: `value (, value)* ]`. -/
def parseElems (fuel : Nat) (s : List Char) (acc : List Value) :
    Option (Value × List Char) :=
  match fuel with
  | 0 => none
  | fuel + 1 =>
    match parseVal fuel s with
    | none => none
    | some (v, rest) =>
      match rest.dropWhile jsonWsB with
      | ',' :: rest' => parseElems fuel rest' (acc ++ [v])
      | ']' :: rest' => some (.arr (acc ++ [v]), rest')
      | _ => none

end

/-- `json.loads`: parse a complete document, allowing surrounding
whitespace, rejecting trailing data; `none` models `JSONDecodeError`. -/
def jsonParse (s : List Char) : Option Value :=
  match parseVal (s.length + 1) s with
  | some (v, rest) => if rest.dropWhile jsonWsB = [] then some v else none
  | none => none

/-- `"name"` with its quotes, the literal required inside the bare
brace-delimited pattern at line 49. -/
def nameLit : List Char := ['"', 'n', 'a', 'm', 'e', '"']

/-- Closing-delimiter test for the lazy group of the fenced pattern: after
a candidate `}`, the remainder must be whitespace followed by ``` . -/
def closeOk (s : List Char) : Bool :=
  isPre ['`', '`', '`'] (s.dropWhile isWs)

/-- The lazy part `.*?\}` of the fenced pattern under DOTALL: stop at the
first `}` whose remainder passes `closeOk`, else keep consuming. -/
def lazyScan : List Char → Option (List Char)
  | [] => none
  | c :: rest =>
    if c = '}' && closeOk rest then some ['}']
    else (lazyScan rest).map (c :: ·)

/-- Tail of the fenced pattern right after a literal ```json :
`\s*(\{.*?\})\s*` followed by ``` . -/
def fencedTryAt (s : List Char) : Option (List Char) :=
  match s.dropWhile isWs with
  | '{' :: rest => (lazyScan rest).map ('{' :: ·)
  | _ => none

/-- Leftmost search of the fenced pattern of line 47, scanning candidate
start positions left to right as `re.search` does. -/
def fencedSearch : List Char → Option (List Char)
  | [] => none
  | c :: rest =>
    if isPre ['`', '`', '`', 'j', 's', 'o', 'n'] (c :: rest) then
      match fencedTryAt ((c :: rest).drop 7) with
      | some g => some g
      | none => fencedSearch rest
    else fencedSearch rest

/-- The prefix of `tail` ending at its last `}`, if any. -/
def uptoLastBrace (tail : List Char) : Option (List Char) :=
  match tail.reverse.dropWhile (fun c => decide (c ≠ '}')) with
  | [] => none
  | c :: t => some ((c :: t).reverse)

/-- Continuation of the bare search on the text following the first `{`. -/
def bareSearchCore (rest : List Char) : Option (List Char) :=
  match firstOcc nameLit rest with
  | none => none
  | some k =>
    match uptoLastBrace (rest.drop (k + 6)) with
    | none => none
    | some mid => some ('{' :: (rest.take (k + 6) ++ mid))

/-- Leftmost-greedy search of the bare pattern `(\{.*"name".*\})` under
DOTALL (line 49): the group runs from the first `{` to the last `}` that
still has a `"name"` occurrence between them. -/
def bareSearch (s : List Char) : Option (List Char) :=
  match s.dropWhile (fun c => decide (c ≠ '{')) with
  | [] => none
  | _ :: rest => bareSearchCore rest

/-- Strategy A's group search: the fenced pattern takes priority, and the
bare pattern is consulted only when no fenced match exists (lines 47-49). -/
def strategyAGroup (s : List Char) : Option (List Char) :=
  match fencedSearch s with
  | some g => some g
  | none => bareSearch s

/-- Strategy A (lines 50-56): parse the found group, accepting only a
value carrying a `name` key; a parse failure or a missing key yields
nothing and control falls through to Strategy B. -/
def strategyA (s : List Char) : Option Value :=
  match strategyAGroup s with
  | none => none
  | some g =>
    match jsonParse g with
    | none => none
    | some v => if hasNameKey v then some v else none

/-- `-?` then a digit run whose length must lie in `lo..hi` followed by a
literal `.` and a nonempty digit run: the deterministic backtracking core
of `-?\d{lo,hi}\.\d+`.  Returns the matched text and the remainder. -/
def decNum (lo hi : Nat) (s : List Char) : Option (List Char × List Char) :=
  let (neg, s1) := match s with
    | '-' :: t => (true, t)
    | _ => (false, s)
  let ds := s1.takeWhile Char.isDigit
  if lo ≤ ds.length ∧ ds.length ≤ hi then
    match s1.drop ds.length with
    | '.' :: t =>
      let fs := t.takeWhile Char.isDigit
      if fs.isEmpty then none
      else some ((if neg then ['-'] else []) ++ ds ++ '.' :: fs, t.drop fs.length)
    | _ => none
  else none

/-- The separator class `[,\s]`. -/
def isSep (c : Char) : Bool := c = ',' || isWs c

/-- One attempt of `(-?\d{1,2}\.\d+)[,\s]+(-?\d{1,3}\.\d+)` at the current
position. -/
def tryCoord (s : List Char) : Option (List Char × List Char) :=
  match decNum 1 2 s with
  | none => none
  | some (g1, r1) =>
    let sep := r1.takeWhile isSep
    if sep.isEmpty then none
    else
      match decNum 1 3 (r1.drop sep.length) with
      | none => none
      | some (g2, _) => some (g1, g2)

/-- Groups of the leftmost match of the coordinate pattern, i.e.
`re.findall(...)[0]` at lines 63-65. -/
def coordFind : List Char → Option (List Char × List Char)
  | [] => none
  | c :: rest =>
    match tryCoord (c :: rest) with
    | some r => some r
    | none => coordFind rest

/-- The regex word class `\w` restricted to ASCII. -/
def isWord (c : Char) : Bool := c.isAlpha || c.isDigit || c = '_'

/-- `[A-Za-z]`. -/
def isAsciiLetter (c : Char) : Bool := ('A' ≤ c && c ≤ 'Z') || ('a' ≤ c && c ≤ 'z')

/-- After a keyword: `\s+([A-Za-z]{2})\b`. -/
def stateTail (s : List Char) : Option (List Char) :=
  let ws := s.takeWhile isWs
  if ws.isEmpty then none
  else
    match s.drop ws.length with
    | a :: b :: rest =>
      if isAsciiLetter a && isAsciiLetter b then
        match rest with
        | [] => some [a, b]
        | c :: _ => if isWord c then none else some [a, b]
      else none
    | _ => none

/-- One attempt of `\b(?:in|for|state)\s+([A-Za-z]{2})\b` at the current
position, given the preceding character; the alternation is tried in the
written order. -/
def tryState (prev : Option Char) (s : List Char) : Option (List Char) :=
  let boundary := match prev with
    | none => true
    | some p => !isWord p
  if !boundary then none
  else
    (if isPre ['i', 'n'] s then stateTail (s.drop 2) else none).orElse (fun _ =>
    (if isPre ['f', 'o', 'r'] s then stateTail (s.drop 3) else none).orElse (fun _ =>
    if isPre ['s', 't', 'a', 't', 'e'] s then stateTail (s.drop 5) else none))

/-- Leftmost scan for the state pattern, tracking the previous character
for the word boundary. -/
def stateScan (prev : Option Char) : List Char → Option (List Char)
  | [] => none
  | c :: rest =>
    match tryState prev (c :: rest) with
    | some st => some st
    | none => stateScan (some c) rest

/-- `re.search` of the state pattern of line 71. -/
def stateSearch (s : List Char) : Option (List Char) := stateScan none s

/-- The key `arguments`. -/
def argsKey : List Char := ['a', 'r', 'g', 'u', 'm', 'e', 'n', 't', 's']

/-- Python `float()` on a captured `-?\d+\.\d+` group, modelled as the
exact decimal rational. -/
def decToRat (s : List Char) : ℚ :=
  let (neg, s1) := match s with
    | '-' :: t => (true, t)
    | _ => (false, s)
  let ds := s1.takeWhile Char.isDigit
  let fs := (s1.drop (ds.length + 1)).takeWhile Char.isDigit
  let mag : ℚ := (digitsVal ds : ℚ) + (digitsVal fs : ℚ) / ((10 : ℚ) ^ fs.length)
  if neg then -mag else mag

/-- The literal dict of line 66. -/
def mkForecast (lat lon : ℚ) : Value :=
  .obj [(nameKey, .str "get_forecast".toList),
        (argsKey, .obj [("latitude".toList, .num lat), ("longitude".toList, .num lon)])]

/-- The literal dict of line 68. -/
def mkForecastEmpty : Value :=
  .obj [(nameKey, .str "get_forecast".toList), (argsKey, .obj [])]

/-- The literal dict of line 75. -/
def mkAlerts (st : List Char) : Value :=
  .obj [(nameKey, .str "get_alerts".toList),
        (argsKey, .obj [("state".toList, .str st)])]

/-- The literal dict of line 76. -/
def mkAlertsEmpty : Value :=
  .obj [(nameKey, .str "get_alerts".toList), (argsKey, .obj [])]

/-- `"forecast" in lowered or "temperature" in lowered or "weather" in lowered`. -/
def hasForecastKw (lowered : List Char) : Bool :=
  containsSub "forecast".toList lowered || containsSub "temperature".toList lowered ||
    containsSub "weather".toList lowered

/-- `"alert" in lowered or "warning" in lowered or "storm" in lowered`. -/
def hasAlertKw (lowered : List Char) : Bool :=
  containsSub "alert".toList lowered || containsSub "warning".toList lowered ||
    containsSub "storm".toList lowered

/-- Strategy B, the heuristic fallback of lines 59-78, on the stripped
text: the forecast branch is tested first and returns in both of its
cases, so the alert branch only runs without forecast keywords. -/
def strategyB (t : List Char) : Option Value :=
  let lowered := lowerStr t
  if hasForecastKw lowered then
    match coordFind t with
    | some (a, b) => some (mkForecast (decToRat a) (decToRat b))
    | none => some mkForecastEmpty
  else if hasAlertKw lowered then
    match stateSearch t with
    | some st => some (mkAlerts (st.map Char.toUpper))
    | none => some mkAlertsEmpty
  else none

/-- `_detect_weather_tool_call` (lines 38-78): strip, try Strategy A, fall
back to Strategy B. -/
def detectWeatherToolCall (text : List Char) : Option Value :=
  let t := pyStrip text
  match strategyA t with
  | some v => some v
  | none => strategyB t

/-- A content item of a tool result, as shape-sniffed at lines 130-135: an
item with a `.text` attribute, a dict (carrying its `str()` rendering for
the missing-`text`-key case), or anything else via its `str()` rendering. -/
inductive ContentItem where
  | textAttr : List Char → ContentItem
  | dict : List (List Char × List Char) → List Char → ContentItem
  | other : List Char → ContentItem

/-- Lookup in a string-to-string association list. -/
def assocFindS : List (List Char × List Char) → List Char → Option (List Char)
  | [], _ => none
  | (k', v') :: t, k => if k' = k then some v' else assocFindS t k

/-- The per-item contribution of the rendering loop (lines 130-135). -/
def renderItem : ContentItem → List Char
  | .textAttr t => t
  | .dict kvs rep =>
    match assocFindS kvs ['t', 'e', 'x', 't'] with
    | some t => t
    | none => rep
  | .other rep => rep

/-- A tool invocation result: its `content` sequence and its `str()`
rendering (used when `content` is missing or falsy, line 137). -/
structure ToolResultM where
  content : List ContentItem
  strRep : List Char

/-- Lines 127-137: concatenate the items' text into `tool_output` when
`content` is truthy, else fall back to `str(tool_result)`. -/
def renderResult (r : ToolResultM) : List Char :=
  if r.content.isEmpty then r.strRep
  else r.content.foldl (fun acc it => acc ++ renderItem it) []

/-- The argument coercion of lines 115-119: a nonempty list yields its
first element when that is a dict and `{}` otherwise; a dict passes
through; everything else (empty list included) becomes `{}`. -/
def coerceArgs : Value → Value
  | .arr (a :: _) =>
    (match a with
     | .obj kvs => .obj kvs
     | _ => .obj [])
  | .obj kvs => .obj kvs
  | _ => .obj []

/-- Python truthiness of the detected call (`if tool_call:` at line 111). -/
def vTruthy : Value → Bool
  | .null => false
  | .bool b => b
  | .num q => decide (q ≠ 0)
  | .str s => !s.isEmpty
  | .arr vs => !vs.isEmpty
  | .obj kvs => !kvs.isEmpty

/-- `"\n".join(...)` of line 156. -/
def joinNL (parts : List (List Char)) : List Char :=
  List.intercalate ['\n'] parts

/-- The inline marker appended at line 151: `[Tool call error: {e}]`. -/
def errMarker (e : List Char) : List Char :=
  "[Tool call error: ".toList ++ e ++ [']']

/-- Observable outcome of one `process_query` run: the returned text, the
number of model-inference calls made, and the invocation attempted. -/
structure QueryTrace where
  output : List Char
  llamaCalls : Nat
  invoked : Option (Value × Value)

/-- The `args` local of lines 113-119: `tool_call.get("arguments", {})`
passed through the coercion. -/
def argsOf (tc : Value) : Value :=
  coerceArgs ((objGet tc argsKey).getD (.obj []))

/-- `process_query` (lines 80-156), with the collaborators abstracted:
`responseText` is the primary model output, `followup` maps the rendered
tool output to the second model reply, and `callTool` is the MCP session
invocation, whose `.error` models an exception caught at line 149.  The
result is `none` exactly when the unguarded `tool_call["name"]` lookup of
line 112 (outside the `try`) would raise. -/
def processQuery (responseText : List Char)
    (callTool : Value → Value → Except (List Char) ToolResultM)
    (followup : List Char → List Char) : Option QueryTrace :=
  match detectWeatherToolCall responseText with
  | none => some ⟨joinNL [responseText], 1, none⟩
  | some tc =>
    if vTruthy tc then
      match objGet tc nameKey with
      | none => none
      | some nv =>
        match callTool nv (argsOf tc) with
        | .error e =>
          some ⟨joinNL [responseText, errMarker e], 1, some (nv, argsOf tc)⟩
        | .ok r =>
          some ⟨joinNL [responseText, followup (renderResult r)], 2, some (nv, argsOf tc)⟩
    else some ⟨joinNL [responseText], 1, none⟩

/-- The text of a ```json fenced block around `j`, with whitespace runs
`ws1` and `ws2` inside the fence. -/
def fencedWrap (ws1 j ws2 : List Char) : List Char :=
  '`' :: '`' :: '`' :: 'j' :: 's' :: 'o' :: 'n' :: (ws1 ++ j ++ ws2) ++ ['`', '`', '`']

/-- The `name` field of a detected call, when it is a string (an
observation used to tell distinct detector outcomes apart). -/
def nameStrOf : Value → Option (List Char)
  | .obj kvs =>
    match assocFind kvs nameKey with
    | some (.str s) => some s
    | _ => none
  | _ => none

/-! ## List-level helper lemmas -/

theorem dropWhile_app_cons (p : Char → Bool) (a : List Char) (c : Char) (x : List Char)
    (hc : p c = false) :
    (a ++ c :: x).dropWhile p = a.dropWhile p ++ c :: x := by
  induction a with
  | nil => simp [List.dropWhile_cons, hc]
  | cons d a ih =>
    by_cases hd : p d = true
    · simp [List.dropWhile_cons, hd, ih]
    · simp only [Bool.not_eq_true] at hd
      simp [List.dropWhile_cons, hd]

theorem dropWhile_app_all (p : Char → Bool) (a x : List Char)
    (ha : ∀ c ∈ a, p c = true) :
    (a ++ x).dropWhile p = x.dropWhile p := by
  induction a with
  | nil => rfl
  | cons d a ih =>
    simp only [List.cons_append, List.dropWhile_cons, ha d (by simp), if_true]
    exact ih (fun c hc => ha c (by simp [hc]))

theorem mem_of_mem_dropWhile {p : Char → Bool} {l : List Char} {c : Char}
    (h : c ∈ l.dropWhile p) : c ∈ l := by
  induction l with
  | nil => simp at h
  | cons d l ih =>
    rw [List.dropWhile_cons] at h
    by_cases hd : p d = true
    · simp only [hd, if_true] at h
      exact List.mem_cons_of_mem _ (ih h)
    · simp only [Bool.not_eq_true] at hd
      simpa [hd] using h

theorem pyStrip_decompose (pre m post : List Char) (c d : Char)
    (hc : isWs c = false) (hd : isWs d = false) :
    pyStrip (pre ++ (c :: m ++ [d]) ++ post) =
      pre.dropWhile isWs ++ (c :: m ++ [d]) ++ (post.reverse.dropWhile isWs).reverse := by
  have h1 : pre ++ (c :: m ++ [d]) ++ post = pre ++ c :: (m ++ d :: post) := by simp
  have h2 : (pre.dropWhile isWs ++ c :: (m ++ d :: post)).reverse
      = post.reverse ++ d :: (m.reverse ++ c :: (pre.dropWhile isWs).reverse) := by
    simp
  rw [pyStrip, h1, dropWhile_app_cons _ _ _ _ hc, h2, dropWhile_app_cons _ _ _ _ hd]
  simp

theorem isPre_length_le {p s : List Char} (h : isPre p s = true) : p.length ≤ s.length := by
  induction p generalizing s with
  | nil => simp
  | cons a p ih =>
    cases s with
    | nil => simp [isPre] at h
    | cons b s =>
      rw [isPre] at h
      split at h
      · simpa using ih h
      · exact absurd h (by simp)

theorem isPre_append {p s : List Char} (x : List Char) (h : isPre p s = true) :
    isPre p (s ++ x) = true := by
  induction p generalizing s with
  | nil => simp [isPre]
  | cons a p ih =>
    cases s with
    | nil => simp [isPre] at h
    | cons b s =>
      rw [isPre] at h
      rw [List.cons_append, isPre]
      split at h
      · next hab => rw [if_pos hab]; exact ih h
      · exact absurd h (by simp)

theorem isPre_self_append (p x : List Char) : isPre p (p ++ x) = true := by
  induction p with
  | nil => simp [isPre]
  | cons a p ih => simpa [isPre] using ih

theorem firstOcc_zero_of_isPre {p s : List Char} (h : isPre p s = true) :
    firstOcc p s = some 0 := by
  cases s with
  | nil => rw [firstOcc, if_pos h]
  | cons c s => rw [firstOcc, if_pos h]

theorem firstOcc_isPre {p s : List Char} {k : Nat} (h : firstOcc p s = some k) :
    isPre p (s.drop k) = true := by
  induction s generalizing k with
  | nil =>
    rw [firstOcc] at h
    split at h
    · next hp => cases h; simpa using hp
    · cases h
  | cons c s ih =>
    rw [firstOcc] at h
    split at h
    · next hp => cases h; simpa using hp
    · cases ho : firstOcc p s with
      | none => rw [ho] at h; cases h
      | some k' =>
        rw [ho] at h
        simp only [Option.map_some', Option.some.injEq] at h
        subst h
        simpa using ih ho

theorem firstOcc_append_le {p b : List Char} {kb : Nat} (x : List Char)
    (h : firstOcc p b = some kb) :
    ∃ k, k ≤ kb ∧ firstOcc p (b ++ x) = some k := by
  induction b generalizing kb with
  | nil =>
    rw [firstOcc] at h
    split at h
    · next hp =>
      cases h
      exact ⟨0, le_refl 0, firstOcc_zero_of_isPre (by simpa using isPre_append x hp)⟩
    · cases h
  | cons c b ih =>
    rw [firstOcc] at h
    split at h
    · next hp =>
      cases h
      exact ⟨0, le_refl 0, firstOcc_zero_of_isPre (by simpa using isPre_append x hp)⟩
    · next hp =>
      cases ho : firstOcc p b with
      | none => rw [ho] at h; cases h
      | some kb' =>
        rw [ho] at h
        simp only [Option.map_some', Option.some.injEq] at h
        subst h
        obtain ⟨k, hk, hocc⟩ := ih ho
        rw [List.cons_append, firstOcc]
        split
        · exact ⟨0, Nat.zero_le _, rfl⟩
        · exact ⟨k + 1, by omega, by rw [hocc]; rfl⟩

theorem uptoLastBrace_extract (b2 post : List Char) (hpost : ∀ c ∈ post, c ≠ '}') :
    uptoLastBrace (b2 ++ '}' :: post) = some (b2 ++ ['}']) := by
  unfold uptoLastBrace
  have h1 : (b2 ++ '}' :: post).reverse = post.reverse ++ '}' :: b2.reverse := by simp
  rw [h1, dropWhile_app_all _ _ _
    (fun c hc => by simp [hpost c (List.mem_reverse.mp hc)])]
  simp [List.dropWhile_cons]

theorem bareSearch_extract (pre b post : List Char)
    (hpre : ∀ c ∈ pre, c ≠ '{') (hpost : ∀ c ∈ post, c ≠ '}')
    (hname : containsSub nameLit b = true) :
    bareSearch (pre ++ ('{' :: b ++ ['}']) ++ post) = some ('{' :: b ++ ['}']) := by
  have h1 : pre ++ ('{' :: b ++ ['}']) ++ post = pre ++ '{' :: (b ++ '}' :: post) := by simp
  have hdw : (pre ++ '{' :: (b ++ '}' :: post)).dropWhile (fun c => decide (c ≠ '{'))
      = '{' :: (b ++ '}' :: post) := by
    rw [dropWhile_app_all _ _ _ (fun c hc => by simp [hpre c hc])]
    simp [List.dropWhile_cons]
  rw [bareSearch, h1, hdw]
  show bareSearchCore (b ++ '}' :: post) = some ('{' :: b ++ ['}'])
  rw [containsSub] at hname
  cases hb : firstOcc nameLit b with
  | none => rw [hb] at hname; simp at hname
  | some kb =>
    obtain ⟨k, hk, hocc⟩ := firstOcc_append_le ('}' :: post) hb
    have hkb : kb + 6 ≤ b.length := by
      have h6 := isPre_length_le (firstOcc_isPre hb)
      rw [List.length_drop] at h6
      simp only [nameLit, List.length_cons] at h6
      omega
    have hk6 : k + 6 ≤ b.length := by omega
    have hdrop : (b ++ '}' :: post).drop (k + 6) = b.drop (k + 6) ++ '}' :: post :=
      List.drop_append_of_le_length hk6
    have htake : (b ++ '}' :: post).take (k + 6) = b.take (k + 6) :=
      List.take_append_of_le_length hk6
    simp only [bareSearchCore, hocc, hdrop, htake, uptoLastBrace_extract _ _ hpost]
    rw [← List.append_assoc, List.take_append_drop]
    simp

theorem fencedSearch_none (s : List Char) (h : ∀ c ∈ s, c ≠ '`') :
    fencedSearch s = none := by
  induction s with
  | nil => rfl
  | cons c rest ih =>
    rw [fencedSearch]
    have hc : c ≠ '`' := h c (by simp)
    rw [show isPre ['`', '`', '`', 'j', 's', 'o', 'n'] (c :: rest) = false by
      rw [isPre, if_neg (fun he => hc he.symm)]]
    simp only [Bool.false_eq_true, if_false]
    exact ih (fun d hd => h d (by simp [hd]))

theorem fencedSearch_skip (pre rest : List Char) (h : ∀ c ∈ pre, c ≠ '`') :
    fencedSearch (pre ++ rest) = fencedSearch rest := by
  induction pre with
  | nil => rfl
  | cons c p ih =>
    rw [List.cons_append, fencedSearch]
    have hc : c ≠ '`' := h c (by simp)
    rw [show isPre ['`', '`', '`', 'j', 's', 'o', 'n'] (c :: (p ++ rest)) = false by
      rw [isPre, if_neg (fun he => hc he.symm)]]
    simp only [Bool.false_eq_true, if_false]
    exact ih (fun d hd => h d (by simp [hd]))

theorem closeOk_app_false (a x : List Char) (ha : ∀ c ∈ a, c ≠ '`') :
    closeOk (a ++ '}' :: x) = false := by
  induction a with
  | nil =>
    rw [closeOk]
    simp [List.dropWhile_cons, isWs, isPre]
  | cons e a ih =>
    rw [closeOk, List.cons_append, List.dropWhile_cons]
    by_cases he : isWs e = true
    · rw [if_pos he]
      rw [closeOk] at ih
      exact ih (fun c hc => ha c (by simp [hc]))
    · simp only [Bool.not_eq_true] at he
      rw [if_neg (by simp [he])]
      have hne : e ≠ '`' := ha e (by simp)
      rw [isPre, if_neg (fun hx => hne hx.symm)]

theorem closeOk_ws_ticks (ws2 x : List Char) (hws2 : ∀ c ∈ ws2, isWs c = true) :
    closeOk (ws2 ++ '`' :: '`' :: '`' :: x) = true := by
  rw [closeOk, dropWhile_app_all _ _ _ hws2]
  simp [List.dropWhile_cons, isWs, isPre]

theorem lazyScan_extract (b ws2 post : List Char)
    (hb : ∀ c ∈ b, c ≠ '`') (hws2 : ∀ c ∈ ws2, isWs c = true) :
    lazyScan (b ++ '}' :: (ws2 ++ '`' :: '`' :: '`' :: post)) = some (b ++ ['}']) := by
  induction b with
  | nil =>
    rw [List.nil_append, lazyScan]
    rw [closeOk_ws_ticks _ _ hws2]
    simp
  | cons c b ih =>
    rw [List.cons_append, lazyScan]
    have hguard : (decide (c = '}') && closeOk (b ++ '}' :: (ws2 ++ '`' :: '`' :: '`' :: post))) = false := by
      by_cases hc : c = '}'
      · rw [show b ++ '}' :: (ws2 ++ '`' :: '`' :: '`' :: post)
            = b ++ '}' :: (ws2 ++ '`' :: '`' :: '`' :: post) from rfl,
          closeOk_app_false _ _ (fun d hd => hb d (by simp [hd]))]
        simp
      · simp [hc]
    rw [hguard]
    simp only [Bool.false_eq_true, if_false]
    rw [ih (fun d hd => hb d (by simp [hd]))]
    simp

theorem fencedTryAt_extract (ws1 b ws2 post : List Char)
    (hws1 : ∀ c ∈ ws1, isWs c = true) (hws2 : ∀ c ∈ ws2, isWs c = true)
    (hb : ∀ c ∈ b, c ≠ '`') :
    fencedTryAt (ws1 ++ ('{' :: b ++ ['}']) ++ (ws2 ++ '`' :: '`' :: '`' :: post))
      = some ('{' :: b ++ ['}']) := by
  have h1 : ws1 ++ ('{' :: b ++ ['}']) ++ (ws2 ++ '`' :: '`' :: '`' :: post)
      = ws1 ++ '{' :: (b ++ '}' :: (ws2 ++ '`' :: '`' :: '`' :: post)) := by simp
  have hdw : (ws1 ++ '{' :: (b ++ '}' :: (ws2 ++ '`' :: '`' :: '`' :: post))).dropWhile isWs
      = '{' :: (b ++ '}' :: (ws2 ++ '`' :: '`' :: '`' :: post)) := by
    rw [dropWhile_app_all _ _ _ hws1]
    simp [List.dropWhile_cons, isWs]
  rw [fencedTryAt, h1, hdw]
  show (lazyScan (b ++ '}' :: (ws2 ++ '`' :: '`' :: '`' :: post))).map ('{' :: ·)
      = some ('{' :: b ++ ['}'])
  rw [lazyScan_extract _ _ _ hb hws2]
  simp

theorem fencedSearch_extract (pre ws1 b ws2 post : List Char)
    (hpre : ∀ c ∈ pre, c ≠ '`') (hws1 : ∀ c ∈ ws1, isWs c = true)
    (hws2 : ∀ c ∈ ws2, isWs c = true) (hb : ∀ c ∈ b, c ≠ '`') :
    fencedSearch (pre ++ '`' :: '`' :: '`' :: 'j' :: 's' :: 'o' :: 'n' ::
        (ws1 ++ ('{' :: b ++ ['}']) ++ (ws2 ++ '`' :: '`' :: '`' :: post)))
      = some ('{' :: b ++ ['}']) := by
  rw [fencedSearch_skip _ _ hpre, fencedSearch]
  rw [show isPre ['`', '`', '`', 'j', 's', 'o', 'n']
      ('`' :: '`' :: '`' :: 'j' :: 's' :: 'o' :: 'n' ::
        (ws1 ++ ('{' :: b ++ ['}']) ++ (ws2 ++ '`' :: '`' :: '`' :: post))) = true by
    simp [isPre]]
  simp only [if_true]
  rw [show (('`' :: '`' :: '`' :: 'j' :: 's' :: 'o' :: 'n' ::
      (ws1 ++ ('{' :: b ++ ['}']) ++ (ws2 ++ '`' :: '`' :: '`' :: post))).drop 7)
      = ws1 ++ ('{' :: b ++ ['}']) ++ (ws2 ++ '`' :: '`' :: '`' :: post) from rfl]
  rw [fencedTryAt_extract _ _ _ _ hws1 hws2 hb]

/-! ## Extractor-level lemmas -/

theorem strategyA_of_found (s g : List Char) (v : Value)
    (hg : strategyAGroup s = some g) (hp : jsonParse g = some v)
    (hk : hasNameKey v = true) : strategyA s = some v := by
  simp only [strategyA, hg, hp, hk, if_true]

theorem detect_of_strategyA (t : List Char) (v : Value)
    (h : strategyA (pyStrip t) = some v) : detectWeatherToolCall t = some v := by
  simp only [detectWeatherToolCall, h]

theorem detect_of_strategyA_none (t : List Char)
    (h : strategyA (pyStrip t) = none) :
    detectWeatherToolCall t = strategyB (pyStrip t) := by
  simp only [detectWeatherToolCall, h]

theorem detect_bare (pre b post : List Char) (v : Value)
    (hpre : ∀ c ∈ pre, c ≠ '{' ∧ c ≠ '`')
    (hpost : ∀ c ∈ post, c ≠ '}' ∧ c ≠ '`')
    (hb : ∀ c ∈ b, c ≠ '`')
    (hname : containsSub nameLit b = true)
    (hparse : jsonParse ('{' :: b ++ ['}']) = some v)
    (hkey : hasNameKey v = true) :
    detectWeatherToolCall (pre ++ ('{' :: b ++ ['}']) ++ post) = some v := by
  have hstrip := pyStrip_decompose pre b post '{' '}' (by decide) (by decide)
  have hpre2 : ∀ c ∈ pre.dropWhile isWs, c ≠ '{' ∧ c ≠ '`' :=
    fun c hc => hpre c (mem_of_mem_dropWhile hc)
  have hpost2 : ∀ c ∈ (post.reverse.dropWhile isWs).reverse, c ≠ '}' ∧ c ≠ '`' :=
    fun c hc =>
      hpost c (List.mem_reverse.mp (mem_of_mem_dropWhile (List.mem_reverse.mp hc)))
  have hfen : fencedSearch (pre.dropWhile isWs ++ ('{' :: b ++ ['}'])
      ++ (post.reverse.dropWhile isWs).reverse) = none := by
    apply fencedSearch_none
    intro c hc
    simp only [List.mem_append] at hc
    rcases hc with (hc | hc) | hc
    · exact (hpre2 c hc).2
    · simp only [List.cons_append, List.mem_cons, List.mem_append,
        List.mem_singleton] at hc
      rcases hc with (hc | hc) | hc | hc
      · subst hc; decide
      · exact hb c hc
      · subst hc; decide
      · simp at hc
    · exact (hpost2 c hc).2
  have hbare := bareSearch_extract (pre.dropWhile isWs) b
    ((post.reverse.dropWhile isWs).reverse)
    (fun c hc => (hpre2 c hc).1) (fun c hc => (hpost2 c hc).1) hname
  apply detect_of_strategyA
  rw [hstrip]
  exact strategyA_of_found _ _ _ (by simp only [strategyAGroup, hfen, hbare]) hparse hkey

theorem detect_fenced (pre ws1 b ws2 post : List Char) (v : Value)
    (hpre : ∀ c ∈ pre, c ≠ '`')
    (hws1 : ∀ c ∈ ws1, isWs c = true) (hws2 : ∀ c ∈ ws2, isWs c = true)
    (hb : ∀ c ∈ b, c ≠ '`')
    (hparse : jsonParse ('{' :: b ++ ['}']) = some v)
    (hkey : hasNameKey v = true) :
    detectWeatherToolCall (pre ++ fencedWrap ws1 ('{' :: b ++ ['}']) ws2 ++ post)
      = some v := by
  have hmid : fencedWrap ws1 ('{' :: b ++ ['}']) ws2
      = '`' :: ('`' :: '`' :: 'j' :: 's' :: 'o' :: 'n' ::
          (ws1 ++ ('{' :: b ++ ['}']) ++ ws2) ++ ['`', '`']) ++ ['`'] := by
    simp [fencedWrap]
  have hstrip := pyStrip_decompose pre
    ('`' :: '`' :: 'j' :: 's' :: 'o' :: 'n' ::
      (ws1 ++ ('{' :: b ++ ['}']) ++ ws2) ++ ['`', '`']) post '`' '`'
    (by decide) (by decide)
  have hpre2 : ∀ c ∈ pre.dropWhile isWs, c ≠ '`' :=
    fun c hc => hpre c (mem_of_mem_dropWhile hc)
  have hshape : pre.dropWhile isWs
        ++ ('`' :: ('`' :: '`' :: 'j' :: 's' :: 'o' :: 'n' ::
            (ws1 ++ ('{' :: b ++ ['}']) ++ ws2) ++ ['`', '`']) ++ ['`'])
        ++ (post.reverse.dropWhile isWs).reverse
      = pre.dropWhile isWs ++ '`' :: '`' :: '`' :: 'j' :: 's' :: 'o' :: 'n' ::
          (ws1 ++ ('{' :: b ++ ['}'])
            ++ (ws2 ++ '`' :: '`' :: '`' :: (post.reverse.dropWhile isWs).reverse)) := by
    simp
  have hfen := fencedSearch_extract (pre.dropWhile isWs) ws1 b ws2
    ((post.reverse.dropWhile isWs).reverse) hpre2 hws1 hws2 hb
  apply detect_of_strategyA
  rw [hmid, hstrip, hshape]
  exact strategyA_of_found _ _ _ (by simp only [strategyAGroup, hfen]) hparse hkey

theorem strategyA_hasName (s : List Char) (v : Value) (h : strategyA s = some v) :
    hasNameKey v = true := by
  rw [strategyA] at h
  split at h
  · simp at h
  · split at h
    · simp at h
    · split at h
      · next hk => cases h; exact hk
      · simp at h

theorem strategyB_hasName (t : List Char) (v : Value) (h : strategyB t = some v) :
    hasNameKey v = true := by
  simp only [strategyB] at h
  split at h
  · split at h
    · cases h; rfl
    · cases h; rfl
  · split at h
    · split at h
      · cases h; rfl
      · cases h; rfl
    · simp at h

theorem detect_hasName (t : List Char) (v : Value)
    (h : detectWeatherToolCall t = some v) : hasNameKey v = true := by
  rw [detectWeatherToolCall] at h
  split at h
  · next hA => cases h; exact strategyA_hasName _ _ hA
  · exact strategyB_hasName _ _ h

theorem vTruthy_of_name (tc nv : Value) (h : objGet tc nameKey = some nv) :
    vTruthy tc = true := by
  cases tc with
  | obj kvs =>
    cases kvs with
    | nil => simp [objGet, assocFind] at h
    | cons hd tl => simp [vTruthy]
  | null => simp [objGet] at h
  | bool b => simp [objGet] at h
  | num q => simp [objGet] at h
  | str s => simp [objGet] at h
  | arr vs => simp [objGet] at h

theorem processQuery_isSome (r : List Char)
    (ct : Value → Value → Except (List Char) ToolResultM)
    (f : List Char → List Char) : (processQuery r ct f).isSome = true := by
  rw [processQuery]
  split
  · simp
  · next tc hdet =>
    split
    · split
      · next hn =>
        have hname := detect_hasName r tc hdet
        rw [hasNameKey, hn] at hname
        simp at hname
      · split
        · simp
        · simp
    · simp

theorem foldl_render (l : List ContentItem) (acc : List Char) :
    l.foldl (fun a it => a ++ renderItem it) acc = acc ++ (l.map renderItem).flatten := by
  induction l generalizing acc with
  | nil => simp
  | cons it l ih => simp [ih, List.append_assoc]

theorem joinNL_single (a : List Char) : joinNL [a] = a := by
  simp [joinNL, List.intercalate]

theorem joinNL_pair (a b : List Char) : joinNL [a, b] = a ++ '\n' :: b := by
  simp [joinNL, List.intercalate]

/-! ## Claim theorems -/

/-- Claim C1, counterexample.  The text `a { b {"name": "Bob"}` contains
the well-formed object `{"name": "Bob"}` bare in the text, yet the
extractor detects nothing: the greedy bare pattern grabs from the first
`{` of the prose to the last `}`, the group `{ b {"name": "Bob"}` fails
to parse, and Strategy B finds no keywords — so Strategy A does not
return the contained object, refuting the claim that surrounding prose
with braces is harmless. -/
theorem C1_counterexample :
    containsSub ('{' :: "\"name\": \"Bob\"".toList ++ ['}']) "a \x7b b \x7b\"name\": \"Bob\"\x7d".toList
      = true
    ∧ jsonParse ('{' :: "\"name\": \"Bob\"".toList ++ ['}'])
        = some (.obj [(nameKey, .str "Bob".toList)])
    ∧ strategyA (pyStrip "a \x7b b \x7b\"name\": \"Bob\"\x7d".toList) = none
    ∧ detectWeatherToolCall "a \x7b b \x7b\"name\": \"Bob\"\x7d".toList = none
    ∧ detectWeatherToolCall "a \x7b b \x7b\"name\": \"Bob\"\x7d".toList
        ≠ some (.obj [(nameKey, .str "Bob".toList)]) :=
  ⟨rfl, rfl, rfl, rfl, fun h => nomatch h⟩

/-- Claim C1, amended.  Strategy A extracts a well-formed JSON object
with a literal `"name"` key exactly, for a ```json-fenced object whose
fence contains only the object (and whose text has no other backticks
before or inside it), and for a bare object whose surrounding prose
contains no braces and no backticks (the object text itself
backtick-free).  The original claim fails for arbitrary prose: braces in
the prose derail the greedy bare pattern, and stray fences pre-empt it. -/
theorem C1_amended :
    (∀ (pre ws1 b ws2 post : List Char) (v : Value),
      (∀ c ∈ pre, c ≠ '`') →
      (∀ c ∈ ws1, isWs c = true) → (∀ c ∈ ws2, isWs c = true) →
      (∀ c ∈ b, c ≠ '`') →
      jsonParse ('{' :: b ++ ['}']) = some v → hasNameKey v = true →
      detectWeatherToolCall (pre ++ fencedWrap ws1 ('{' :: b ++ ['}']) ws2 ++ post)
        = some v)
    ∧ (∀ (pre b post : List Char) (v : Value),
      (∀ c ∈ pre, c ≠ '{' ∧ c ≠ '`') →
      (∀ c ∈ post, c ≠ '}' ∧ c ≠ '`') →
      (∀ c ∈ b, c ≠ '`') →
      containsSub nameLit b = true →
      jsonParse ('{' :: b ++ ['}']) = some v → hasNameKey v = true →
      detectWeatherToolCall (pre ++ ('{' :: b ++ ['}']) ++ post) = some v) :=
  ⟨fun pre ws1 b ws2 post v h1 h2 h3 h4 h5 h6 =>
      detect_fenced pre ws1 b ws2 post v h1 h2 h3 h4 h5 h6,
   fun pre b post v h1 h2 h3 h4 h5 h6 =>
      detect_bare pre b post v h1 h2 h3 h4 h5 h6⟩

/-- Claim C1, witness: the amended theorem applied to a concrete fenced
text and a concrete bare text. -/
theorem C1_witness :
    detectWeatherToolCall
        ("Use ".toList ++ fencedWrap [' '] ('{' :: "\"name\": \"hi\"".toList ++ ['}']) ['\n']
          ++ " done".toList)
      = some (.obj [(nameKey, .str "hi".toList)])
    ∧ detectWeatherToolCall
        ("Sure: ".toList ++ ('{' :: "\"name\": \"hi\"".toList ++ ['}']) ++ " ok".toList)
      = some (.obj [(nameKey, .str "hi".toList)]) :=
  ⟨C1_amended.1 "Use ".toList [' '] "\"name\": \"hi\"".toList ['\n'] " done".toList _
      (by decide) (by decide) (by decide) (by decide) rfl rfl,
   C1_amended.2 "Sure: ".toList "\"name\": \"hi\"".toList " ok".toList _
      (by decide) (by decide) (by decide) rfl rfl rfl⟩

/-- Claim C2.  When Strategy A finds nothing in the stripped text and the
lowered text contains a forecast keyword, the extractor returns
`get_forecast` whose latitude and longitude are the first coordinate
pair's groups parsed as (exact-decimal) floats; with a forecast keyword
but no coordinate pair it returns `get_forecast` with empty arguments,
never `none`. -/
theorem C2_forecast_fallback :
    (∀ (t a b : List Char),
      strategyA (pyStrip t) = none →
      hasForecastKw (lowerStr (pyStrip t)) = true →
      coordFind (pyStrip t) = some (a, b) →
      detectWeatherToolCall t = some (mkForecast (decToRat a) (decToRat b)))
    ∧ (∀ t : List Char,
      strategyA (pyStrip t) = none →
      hasForecastKw (lowerStr (pyStrip t)) = true →
      coordFind (pyStrip t) = none →
      detectWeatherToolCall t = some mkForecastEmpty) := by
  constructor
  · intro t a b hA hkw hco
    rw [detect_of_strategyA_none t hA]
    simp only [strategyB, hkw, if_true, hco]
  · intro t hA hkw hco
    rw [detect_of_strategyA_none t hA]
    simp only [strategyB, hkw, if_true, hco]

/-- Claim C2, witness: both branches at concrete inputs. -/
theorem C2_witness :
    detectWeatherToolCall "weather at 37.77, -122.42".toList
      = some (mkForecast (decToRat "37.77".toList) (decToRat "-122.42".toList))
    ∧ detectWeatherToolCall "weather please".toList = some mkForecastEmpty :=
  ⟨C2_forecast_fallback.1 "weather at 37.77, -122.42".toList
      "37.77".toList "-122.42".toList rfl rfl rfl,
   C2_forecast_fallback.2 "weather please".toList rfl rfl rfl⟩

/-- Claim C3, counterexample.  `weather alert in CA` has an alert keyword
and a two-letter token preceded by `in`, yet the extractor returns
`get_forecast` with empty arguments, because the forecast branch is
tested first and `weather` wins — refuting the claim as stated. -/
theorem C3_counterexample :
    strategyA (pyStrip "weather alert in CA".toList) = none
    ∧ hasAlertKw (lowerStr (pyStrip "weather alert in CA".toList)) = true
    ∧ stateSearch (pyStrip "weather alert in CA".toList) = some "CA".toList
    ∧ detectWeatherToolCall "weather alert in CA".toList = some mkForecastEmpty
    ∧ detectWeatherToolCall "weather alert in CA".toList ≠ some (mkAlerts "CA".toList) :=
  ⟨rfl, rfl, rfl, rfl,
   fun h => absurd (congrArg (fun o => Option.bind o nameStrOf) h) (by decide)⟩

/-- Claim C3, amended.  When Strategy A finds nothing, the lowered text
contains NO forecast keyword and an alert keyword: with a two-letter
token preceded by `in`/`for`/`state` the extractor returns `get_alerts`
with the token upper-cased, else `get_alerts` with empty arguments.  The
original claim omitted the no-forecast-keyword guard, which the source's
branch order imposes. -/
theorem C3_amended :
    (∀ (t st : List Char),
      strategyA (pyStrip t) = none →
      hasForecastKw (lowerStr (pyStrip t)) = false →
      hasAlertKw (lowerStr (pyStrip t)) = true →
      stateSearch (pyStrip t) = some st →
      detectWeatherToolCall t = some (mkAlerts (st.map Char.toUpper)))
    ∧ (∀ t : List Char,
      strategyA (pyStrip t) = none →
      hasForecastKw (lowerStr (pyStrip t)) = false →
      hasAlertKw (lowerStr (pyStrip t)) = true →
      stateSearch (pyStrip t) = none →
      detectWeatherToolCall t = some mkAlertsEmpty) := by
  constructor
  · intro t st hA hf ha hst
    rw [detect_of_strategyA_none t hA]
    simp only [strategyB, hf, ha, hst, if_true, Bool.false_eq_true, if_false]
  · intro t hA hf ha hst
    rw [detect_of_strategyA_none t hA]
    simp only [strategyB, hf, ha, hst, if_true, Bool.false_eq_true, if_false]

/-- Claim C3, witness: both branches at concrete inputs (note the
captured token is upper-cased). -/
theorem C3_witness :
    detectWeatherToolCall "warning in ca now".toList = some (mkAlerts "CA".toList)
    ∧ detectWeatherToolCall "storm warning".toList = some mkAlertsEmpty :=
  ⟨by
    have h := C3_amended.1 "warning in ca now".toList "ca".toList rfl rfl rfl rfl
    simpa using h,
   C3_amended.2 "storm warning".toList rfl rfl rfl rfl⟩

/-- Claim C4.  The argument coercion of the orchestrator is total with
exactly this decision table: a dict passes through unchanged; a nonempty
list yields its first element when that is a dict and `{}` otherwise; an
empty list, a string, a number, a boolean or `None` all yield `{}`. -/
theorem C4_normalizer_table :
    (∀ kvs, coerceArgs (.obj kvs) = .obj kvs)
    ∧ (∀ (a : Value) (rest : List Value),
        coerceArgs (.arr (a :: rest))
          = match a with | .obj kvs => .obj kvs | _ => .obj [])
    ∧ coerceArgs (.arr []) = .obj []
    ∧ (∀ s, coerceArgs (.str s) = .obj [])
    ∧ (∀ q, coerceArgs (.num q) = .obj [])
    ∧ (∀ b, coerceArgs (.bool b) = .obj [])
    ∧ coerceArgs .null = .obj [] := by
  refine ⟨fun kvs => rfl, fun a rest => ?_, rfl, fun s => rfl, fun q => rfl,
    fun b => rfl, rfl⟩
  cases a <;> rfl

/-- Claim C5.  If a tool call is detected (with its `name` field) and the
invocation raises, the query still returns normally: the answer is the
primary model output followed on a new line by the inline
`[Tool call error: ...]` marker carrying the cause, with the invocation
attempted and only the one initial model-inference call made. -/
theorem C5_invocation_failure (r : List Char) (tc nv : Value) (e : List Char)
    (ct : Value → Value → Except (List Char) ToolResultM)
    (f : List Char → List Char)
    (hdet : detectWeatherToolCall r = some tc)
    (hn : objGet tc nameKey = some nv)
    (herr : ct nv (argsOf tc) = .error e) :
    processQuery r ct f
      = some ⟨r ++ '\n' :: errMarker e, 1, some (nv, argsOf tc)⟩ := by
  simp only [processQuery, hdet, vTruthy_of_name tc nv hn, if_true, hn, herr,
    joinNL_pair]

/-- Claim C5, witness at a concrete detected call and failing invocation. -/
theorem C5_witness :
    processQuery "\x7b\"name\": \"x\"\x7d".toList
        (fun _ _ => Except.error "boom".toList) (fun s => s)
      = some ⟨"\x7b\"name\": \"x\"\x7d".toList ++ '\n' :: errMarker "boom".toList, 1,
          some (Value.str "x".toList, Value.obj [])⟩ :=
  C5_invocation_failure "\x7b\"name\": \"x\"\x7d".toList
    (Value.obj [(nameKey, Value.str "x".toList)]) (Value.str "x".toList)
    "boom".toList (fun _ _ => Except.error "boom".toList) (fun s => s) rfl rfl rfl

/-- Claim C6.  The extractor is total (it is a function in the model);
when Strategy A's regex search does find a group but the group is
malformed JSON or parses without a `name` key, Strategy A returns
nothing and the extractor's answer is exactly Strategy B's on the
stripped text — the failure is recovered by fall-through, never
surfaced. -/
theorem C6_strategyA_fallthrough (t g : List Char)
    (hg : strategyAGroup (pyStrip t) = some g)
    (hbad : jsonParse g = none ∨ ∃ v, jsonParse g = some v ∧ hasNameKey v = false) :
    strategyA (pyStrip t) = none
    ∧ detectWeatherToolCall t = strategyB (pyStrip t) := by
  have hA : strategyA (pyStrip t) = none := by
    rcases hbad with hb | ⟨v, hv, hk⟩
    · simp only [strategyA, hg, hb]
    · simp only [strategyA, hg, hv, hk, Bool.false_eq_true, if_false]
  exact ⟨hA, detect_of_strategyA_none t hA⟩

/-- Claim C6, witness: a malformed bare group and a name-less fenced
group both fall through to Strategy B. -/
theorem C6_witness :
    (strategyA (pyStrip "\x7b\"name\" oops\x7d".toList) = none
      ∧ detectWeatherToolCall "\x7b\"name\" oops\x7d".toList
          = strategyB (pyStrip "\x7b\"name\" oops\x7d".toList))
    ∧ (strategyA (pyStrip "```json \x7b\"a\": \"b\"\x7d ```".toList) = none
      ∧ detectWeatherToolCall "```json \x7b\"a\": \"b\"\x7d ```".toList
          = strategyB (pyStrip "```json \x7b\"a\": \"b\"\x7d ```".toList)) :=
  ⟨C6_strategyA_fallthrough "\x7b\"name\" oops\x7d".toList "\x7b\"name\" oops\x7d".toList
      rfl (Or.inl rfl),
   C6_strategyA_fallthrough "```json \x7b\"a\": \"b\"\x7d ```".toList "\x7b\"a\": \"b\"\x7d".toList
      rfl (Or.inr ⟨Value.obj [(['a'], Value.str ['b'])], rfl, rfl⟩)⟩

/-- Claim C7.  For a tool result with non-empty content, the rendering
loop produces exactly the in-order concatenation of the items'
representations; items with a `.text` attribute contribute it verbatim,
dict items contribute their `text` field when present and their `str()`
rendering otherwise, and any other item contributes its `str()`
rendering. -/
theorem C7_render_concat (r : ToolResultM) (h : r.content ≠ []) :
    renderResult r = (r.content.map renderItem).flatten
    ∧ (∀ t, renderItem (.textAttr t) = t)
    ∧ (∀ kvs rep t, assocFindS kvs ['t', 'e', 'x', 't'] = some t →
        renderItem (.dict kvs rep) = t)
    ∧ (∀ kvs rep, assocFindS kvs ['t', 'e', 'x', 't'] = none →
        renderItem (.dict kvs rep) = rep)
    ∧ (∀ rep, renderItem (.other rep) = rep) := by
  refine ⟨?_, fun t => rfl,
    fun kvs rep t ht => by simp only [renderItem, ht],
    fun kvs rep ht => by simp only [renderItem, ht],
    fun rep => rfl⟩
  rw [renderResult, if_neg (by simpa using h)]
  simpa using foldl_render r.content []

/-- Claim C7, witness: a three-item result rendered by the loop equals
the concatenation of the items' representations. -/
theorem C7_witness :
    renderResult ⟨[ContentItem.textAttr "ab".toList,
        ContentItem.dict [(['t', 'e', 'x', 't'], "cd".toList)] "z".toList,
        ContentItem.other "ef".toList], "rep".toList⟩
      = ([ContentItem.textAttr "ab".toList,
        ContentItem.dict [(['t', 'e', 'x', 't'], "cd".toList)] "z".toList,
        ContentItem.other "ef".toList].map renderItem).flatten :=
  (C7_render_concat ⟨[ContentItem.textAttr "ab".toList,
        ContentItem.dict [(['t', 'e', 'x', 't'], "cd".toList)] "z".toList,
        ContentItem.other "ef".toList], "rep".toList⟩ (by simp)).1

/-- Claim C8.  When no tool call is detected, the query terminates after
the single initial inference: the answer equals the primary model output
alone, no invocation is attempted, and no second inference call is made. -/
theorem C8_no_call (r : List Char)
    (ct : Value → Value → Except (List Char) ToolResultM)
    (f : List Char → List Char)
    (h : detectWeatherToolCall r = none) :
    processQuery r ct f = some ⟨r, 1, none⟩ := by
  simp only [processQuery, h, joinNL_single]

/-- Claim C8, witness at a keyword-free query. -/
theorem C8_witness :
    processQuery "Tell me a joke".toList
        (fun _ _ => Except.error [])
        (fun s => s)
      = some ⟨"Tell me a joke".toList, 1, none⟩ :=
  C8_no_call "Tell me a joke".toList (fun _ _ => Except.error []) (fun s => s) rfl

/-- Claim C9.  Every non-`none` extractor result carries a `name` key
(Strategy A checks it, Strategy B constructs it), so the orchestrator's
unguarded `tool_call["name"]` lookup never raises: `processQuery` always
returns a trace. -/
theorem C9_detected_call_has_name :
    (∀ (t : List Char) (v : Value),
      detectWeatherToolCall t = some v → hasNameKey v = true)
    ∧ (∀ (r : List Char) (ct : Value → Value → Except (List Char) ToolResultM)
        (f : List Char → List Char), (processQuery r ct f).isSome = true) :=
  ⟨fun t v h => detect_hasName t v h, fun r ct f => processQuery_isSome r ct f⟩

/-- Claim C9, witness: the name-key fact at a concrete detection, and
orchestrator totality at a concrete query. -/
theorem C9_witness :
    hasNameKey (Value.obj [(nameKey, Value.str "x".toList)]) = true
    ∧ (processQuery "weather".toList (fun _ _ => Except.error []) (fun s => s)).isSome
        = true :=
  ⟨C9_detected_call_has_name.1 "\x7b\"name\": \"x\"\x7d".toList
      (Value.obj [(nameKey, Value.str "x".toList)]) rfl,
   C9_detected_call_has_name.2 "weather".toList (fun _ _ => Except.error [])
      (fun s => s)⟩

/-- Claim C10.  When the detected call is a mapping with a `name` key but
no `arguments` key at all, the orchestrator defaults the arguments to
the empty mapping and still attempts the invocation with the detected
name and empty arguments, rather than failing. -/
theorem C10_missing_arguments (r : List Char) (tc nv : Value)
    (ct : Value → Value → Except (List Char) ToolResultM)
    (f : List Char → List Char)
    (hdet : detectWeatherToolCall r = some tc)
    (hn : objGet tc nameKey = some nv)
    (hargs : objGet tc argsKey = none) :
    ∃ tr, processQuery r ct f = some tr ∧ tr.invoked = some (nv, Value.obj []) := by
  have hargsOf : argsOf tc = Value.obj [] := by
    rw [argsOf, hargs]
    rfl
  cases hct : ct nv (argsOf tc) with
  | error e =>
    exact ⟨⟨joinNL [r, errMarker e], 1, some (nv, argsOf tc)⟩,
      by simp only [processQuery, hdet, vTruthy_of_name tc nv hn, if_true, hn, hct],
      by simp [hargsOf]⟩
  | ok res =>
    exact ⟨⟨joinNL [r, f (renderResult res)], 2, some (nv, argsOf tc)⟩,
      by simp only [processQuery, hdet, vTruthy_of_name tc nv hn, if_true, hn, hct],
      by simp [hargsOf]⟩

/-- Claim C10, witness: a Strategy-A call without an `arguments` key is
invoked with empty arguments. -/
theorem C10_witness :
    ∃ tr, processQuery "\x7b\"name\": \"get_alerts\"\x7d".toList
        (fun _ _ => Except.ok ⟨[], []⟩) (fun s => s) = some tr
      ∧ tr.invoked = some (Value.str "get_alerts".toList, Value.obj []) :=
  C10_missing_arguments "\x7b\"name\": \"get_alerts\"\x7d".toList
    (Value.obj [(nameKey, Value.str "get_alerts".toList)])
    (Value.str "get_alerts".toList)
    (fun _ _ => Except.ok ⟨[], []⟩) (fun s => s) rfl rfl rfl
